import Mathlib

/-!
Verification of the SignalFromNoise Reddit scraper.

This file gives a shallow embedding, in Lean 4, of the core pipeline of
`src/reddit_scraper.py` and `src/main.py`:

* `clean_text`, `extract_all_comments_text` - comment text cleaning/flattening;
* `JVal` and its access operations - Python's duck-typed JSON values, with
  `Except PyErr` modelling raised exceptions (KeyError, TypeError, ...);
* `normalize_entry`, `takePosts`, `fetchLoop`, `fetch_subreddit_posts` -
  the paginated listing fetcher `RedditScraper.fetch_subreddit_posts`;
* `extract_comments`, `scrape_post_details` - the per-post detail fetcher;
* `make_request` - the retrying transport `RedditScraper._make_request`;
* `fetch_posts_from_subreddits` - the multi-subreddit orchestrator;
* `python_shuffle`, `run_posts` - `random.shuffle` (Fisher-Yates) as used by
  `BuildOpportunityAnalyzer.run`.

Network effects are modelled by passing the per-call outcomes explicitly
(e.g. the sequence of listing pages a server would serve, or an oracle
mapping a permalink to the detail-fetch outcome).  Python strings are
modelled as lists of characters (`PyStr`) so that `str.strip`, `str.lower`
and substring tests are ordinary computable list functions.
-/

namespace SFN

/-- Python strings, modelled as lists of characters. -/
abbrev PyStr := List Char

/-- Convert a Lean string literal to the `PyStr` model. -/
def pys (s : String) : PyStr := s.toList

/-- Python `str.lower()` (ASCII-adequate model). -/
def pyLower (s : PyStr) : PyStr := s.map Char.toLower

/-- Python `str.strip()`: drop whitespace from both ends. -/
def pyStrip (s : PyStr) : PyStr :=
  (s.dropWhile Char.isWhitespace).rdropWhile Char.isWhitespace

/-- Python `needle in hay` on strings: substring test (contiguous). -/
def pyContains : PyStr → PyStr → Bool
  | [], needle => needle.isEmpty
  | hay@(_ :: t), needle => needle.isPrefixOf hay || pyContains t needle

/-- Model of `clean_text` (reddit_scraper.py lines 203-212): empty input maps
to the empty string; otherwise the input is stripped and, if the stripped text
contains a deletion/removal marker case-insensitively, replaced by the empty
string. -/
def clean_text (text : PyStr) : PyStr :=
  if text = [] then []
  else
    let cleaned := pyStrip text
    if pyContains (pyLower cleaned) (pys "[deleted]")
        || pyContains (pyLower cleaned) (pys "[removed]") then []
    else cleaned

/-- A comment node as built by `RedditScraper._extract_comments`:
author, body, score and a list of reply comments. -/
inductive Comment where
  | mk (author : PyStr) (body : PyStr) (score : Int) (replies : List Comment)

/-- Body field of a comment. -/
def Comment.body : Comment → PyStr
  | .mk _ b _ _ => b

/-- Replies field of a comment. -/
def Comment.replies : Comment → List Comment
  | .mk _ _ _ rs => rs

/-- Model of `extract_all_comments_text` (reddit_scraper.py lines 215-227):
for each comment, the cleaned body is emitted if non-empty; then, if the
comment's reply list is truthy (non-empty), the replies are processed
recursively; then the rest of the list. -/
def extract_all_comments_text : List Comment → List PyStr
  | [] => []
  | .mk _ b _ rs :: rest =>
    (if (clean_text b).isEmpty then [] else [clean_text b])
      ++ (if rs.isEmpty then [] else extract_all_comments_text rs)
      ++ extract_all_comments_text rest

/-- Pre-order, depth-first, left-to-right sequence of the raw bodies of a
comment forest (specification-level description of the walk order). -/
def flattenBodies : List Comment → List PyStr
  | [] => []
  | .mk _ b _ rs :: rest => b :: (flattenBodies rs ++ flattenBodies rest)

/-- Python exceptions that the scraper code can raise while probing a
loosely-typed JSON value. -/
inductive PyErr where
  | keyError
  | typeError
  | indexError
  | attributeError
  | valueError
deriving DecidableEq, Repr

/-- A JSON value as Python's `json` module produces it: `None`, booleans,
numbers, strings, lists and dicts (dict keys are strings). -/
inductive JVal where
  | null
  | bool (b : Bool)
  | num (n : Int)
  | str (s : PyStr)
  | arr (elems : List JVal)
  | obj (fields : List (PyStr × JVal))

/-- Python `v == some_string`: true exactly when `v` is that string. -/
def JVal.eqPyStr (v : JVal) (s : PyStr) : Bool :=
  match v with
  | .str t => t = s
  | _ => false

/-- Python `d[k]` subscription by string key: dict lookup raising `KeyError`
when the key is missing, `TypeError` on values that are not subscriptable by
a string. -/
def JVal.getKey (v : JVal) (k : PyStr) : Except PyErr JVal :=
  match v with
  | .obj fields =>
    match fields.lookup k with
    | some x => .ok x
    | none => .error .keyError
  | .arr _ => .error .typeError
  | .str _ => .error .typeError
  | _ => .error .typeError

/-- Python `v[i]` subscription by integer index: list indexing raising
`IndexError` out of range, `KeyError` on dicts (whose keys here are strings),
`TypeError` otherwise. -/
def JVal.getIdx (v : JVal) (i : Nat) : Except PyErr JVal :=
  match v with
  | .arr xs =>
    match xs.get? i with
    | some x => .ok x
    | none => .error .indexError
  | .obj _ => .error .keyError
  | _ => .error .typeError

/-- Python `d.get(k, default)`: only dicts have `.get`; anything else raises
`AttributeError`. -/
def JVal.dictGet (v : JVal) (k : PyStr) (dflt : JVal) : Except PyErr JVal :=
  match v with
  | .obj fields => .ok ((fields.lookup k).getD dflt)
  | _ => .error .attributeError

/-- Python `k in v` for a string `k`: key membership for dicts, element
membership for lists, substring test for strings, `TypeError` otherwise. -/
def JVal.hasKey (v : JVal) (k : PyStr) : Except PyErr Bool :=
  match v with
  | .obj fields => .ok (fields.lookup k).isSome
  | .arr xs => .ok (xs.any fun x => JVal.eqPyStr x k)
  | .str s => .ok (pyContains s k)
  | _ => .error .typeError

/-- Coerce a `JVal` into the model's string fields.  The observed payload
fields are strings; a non-string value is collapsed to the empty string
(outside the modelled input space). -/
def JVal.toStrD (v : JVal) : PyStr :=
  match v with
  | .str s => s
  | _ => []

/-- Coerce a `JVal` into the model's integer fields (see `JVal.toStrD`). -/
def JVal.toIntD (v : JVal) : Int :=
  match v with
  | .num n => n
  | _ => 0

/-- Size of a value found by `List.lookup` is smaller than the size of the
association list, for the termination of the comment-tree walk. -/
theorem sizeOf_lookup_lt {fs : List (PyStr × JVal)} {k : PyStr} {v : JVal}
    (h : fs.lookup k = some v) : sizeOf v < sizeOf fs := by
  induction fs with
  | nil => simp [List.lookup] at h
  | cons hd tl ih =>
    rw [List.lookup] at h
    split at h
    · cases h
      cases hd with
      | mk a b => simp +arith
    · have h1 := ih h
      have h2 : sizeOf (hd :: tl) = 1 + sizeOf hd + sizeOf tl := by simp
      omega

/-- Every list has positive default size. -/
theorem one_le_sizeOf_list {α : Type} [SizeOf α] (l : List α) : 1 ≤ sizeOf l := by
  cases l <;> simp +arith

mutual

/-- Model of `RedditScraper._extract_comments` (reddit_scraper.py lines
177-200) applied to an arbitrary value, covering Python's `for comment in
comments` iteration: a list iterates its elements; a dict iterates its string
keys and a string its characters (neither yields a dict, so everything is
skipped); other values are not iterable and raise `TypeError`. -/
def extract_comments (v : JVal) : Except PyErr (List Comment) :=
  match v with
  | .arr xs => extract_comments_list xs
  | .obj _ => .ok []
  | .str _ => .ok []
  | _ => .error .typeError
termination_by sizeOf v
decreasing_by
  simp +arith

/-- The element-wise loop of `_extract_comments`: a raw node is kept only if
it is a dict whose `kind` equals `"t1"`; its fields are read with `.get`
defaults from `comment.get("data", {})` and its replies are extracted
recursively. -/
def extract_comments_list : List JVal → Except PyErr (List Comment)
  | [] => .ok []
  | c :: rest =>
    match c with
    | .obj fields =>
      if JVal.eqPyStr ((fields.lookup (pys "kind")).getD .null) (pys "t1") then
        let comment_data := (fields.lookup (pys "data")).getD (.obj [])
        match comment_data.dictGet (pys "author") (.str []) with
        | .error e => .error e
        | .ok authorv =>
          match comment_data.dictGet (pys "body") (.str []) with
          | .error e => .error e
          | .ok bodyv =>
            match comment_data.dictGet (pys "score") (.num 0) with
            | .error e => .error e
            | .ok scorev =>
              match extract_replies comment_data with
              | .error e => .error e
              | .ok reps =>
                match extract_comments_list rest with
                | .error e => .error e
                | .ok tail =>
                  .ok (Comment.mk authorv.toStrD bodyv.toStrD scorev.toIntD reps :: tail)
      else extract_comments_list rest
    | _ => extract_comments_list rest
termination_by xs => sizeOf xs
decreasing_by
  all_goals simp +arith
  all_goals
    cases hl : List.lookup (pys "data") fields with
    | none =>
      have h1 := one_le_sizeOf_list fields
      simp [Option.getD, hl]
      omega
    | some w =>
      have h1 := sizeOf_lookup_lt hl
      simp [Option.getD, hl]
      omega

/-- The replies handling of `_extract_comments`: `replies =
comment_data.get("replies", "")`; only when that is a dict is
`replies.get("data", {}).get("children", [])` extracted recursively (an
absent or empty `children` extracts to the empty list). -/
def extract_replies (comment_data : JVal) : Except PyErr (List Comment) :=
  match comment_data with
  | .obj cdf =>
    match hr : cdf.lookup (pys "replies") with
    | some (.obj rf) =>
      match hd2 : rf.lookup (pys "data") with
      | some (.obj d2f) =>
        match hc : d2f.lookup (pys "children") with
        | some childrenv => extract_comments childrenv
        | none => .ok []
      | some _ => .error .attributeError
      | none => .ok []
    | _ => .ok []
  | _ => .error .attributeError
termination_by sizeOf comment_data
decreasing_by
  have h1 := sizeOf_lookup_lt hr
  have h2 := sizeOf_lookup_lt hd2
  have h3 := sizeOf_lookup_lt hc
  simp +arith at h1 h2 ⊢
  omega

end

/-- A normalized post record as built by `fetch_subreddit_posts`
(reddit_scraper.py lines 114-131).  `top_comments` is `none` until the
orchestrator attaches a comment list. -/
structure Post where
  title : PyStr
  author : PyStr
  subreddit : PyStr
  permalink : PyStr
  score : Int
  num_comments : Int
  created_utc : Int
  selftext : PyStr
  image_url : Option PyStr
  thumbnail_url : Option PyStr
  top_comments : Option (List PyStr)
deriving DecidableEq, Repr

/-- The preview fallback of the image extraction (reddit_scraper.py lines
127-128): if `"preview" in post_data and "images" in post_data["preview"]`,
take `post_data["preview"]["images"][0]["source"]["url"]`. -/
def preview_image_url (post_data : JVal) : Except PyErr (Option PyStr) := do
  let hasPreview ← post_data.hasKey (pys "preview")
  if hasPreview then do
    let preview ← post_data.getKey (pys "preview")
    let hasImages ← preview.hasKey (pys "images")
    if hasImages then do
      let imgs ← preview.getKey (pys "images")
      let firstImg ← imgs.getIdx 0
      let srcv ← firstImg.getKey (pys "source")
      let u ← srcv.getKey (pys "url")
      pure (some u.toStrD)
    else pure none
  else pure none

/-- Normalization of one raw listing entry into a `Post` (reddit_scraper.py
lines 112-133): `post["data"]` is a raising subscription, the scalar fields
are read with `.get` defaults, `image_url` comes from the `post_hint ==
"image"` case or the preview fallback, and `thumbnail_url` is set only when
the thumbnail is not one of the sentinels `"self"`/`"default"`. -/
def normalize_entry (subreddit : PyStr) (entry : JVal) : Except PyErr Post := do
  let post_data ← entry.getKey (pys "data")
  let titlev ← post_data.dictGet (pys "title") (.str [])
  let authorv ← post_data.dictGet (pys "author") (.str [])
  let permalinkv ← post_data.dictGet (pys "permalink") (.str [])
  let scorev ← post_data.dictGet (pys "score") (.num 0)
  let numcv ← post_data.dictGet (pys "num_comments") (.num 0)
  let createdv ← post_data.dictGet (pys "created_utc") (.num 0)
  let selftextv ← post_data.dictGet (pys "selftext") (.str [])
  let post_hintv ← post_data.dictGet (pys "post_hint") .null
  let image_url ←
    if JVal.eqPyStr post_hintv (pys "image") then do
      let hasUrl ← post_data.hasKey (pys "url")
      if hasUrl then do
        let u ← post_data.getKey (pys "url")
        pure (some u.toStrD)
      else preview_image_url post_data
    else preview_image_url post_data
  let hasThumb ← post_data.hasKey (pys "thumbnail")
  let thumbnail_url ←
    if hasThumb then do
      let tv ← post_data.getKey (pys "thumbnail")
      if JVal.eqPyStr tv (pys "self") || JVal.eqPyStr tv (pys "default") then
        pure (none : Option PyStr)
      else pure (some tv.toStrD)
    else pure none
  pure
    { title := titlev.toStrD
      author := authorv.toStrD
      subreddit := subreddit
      permalink := permalinkv.toStrD
      score := scorev.toIntD
      num_comments := numcv.toIntD
      created_utc := createdv.toIntD
      selftext := selftextv.toStrD
      image_url := image_url
      thumbnail_url := thumbnail_url
      top_comments := none }

/-- The result of a successful `scrape_post_details` call (reddit_scraper.py
lines 171-175). -/
structure PostDetails where
  title : PyStr
  body : PyStr
  comments : List Comment

/-- Model of `RedditScraper.scrape_post_details` (reddit_scraper.py lines
148-175).  The transport outcome is passed in: a raised request error is
caught and mapped to `none`; a payload that is not a list of length at least
two is mapped to `none`; otherwise the nested accesses
`post_data[0]["data"]["children"][0]["data"]` and
`post_data[1]["data"]["children"]` are performed, raising past this function
on malformed elements. -/
def scrape_post_details (fetched : Except Unit JVal) : Except PyErr (Option PostDetails) :=
  match fetched with
  | .error _ => .ok none
  | .ok post_data =>
    match post_data with
    | .arr xs =>
      if xs.length < 2 then .ok none
      else do
        let e0 ← post_data.getIdx 0
        let d0 ← e0.getKey (pys "data")
        let ch0 ← d0.getKey (pys "children")
        let c0 ← ch0.getIdx 0
        let main_post ← c0.getKey (pys "data")
        let e1 ← post_data.getIdx 1
        let d1 ← e1.getKey (pys "data")
        let ch1 ← d1.getKey (pys "children")
        let comments ← extract_comments ch1
        let titlev ← main_post.dictGet (pys "title") (.str [])
        let bodyv ← main_post.dictGet (pys "selftext") (.str [])
        pure (some { title := titlev.toStrD, body := bodyv.toStrD, comments := comments })
    | _ => .ok none

/-- One listing page as served by the platform: the raw entries under
`data.children` and the next-page cursor under `data.after`. -/
structure Page where
  children : List JVal
  after : Option PyStr

/-- Python truthiness of the `after` cursor (`if not after: break`): falsy
when absent or the empty string. -/
def afterFalsy : Option PyStr → Bool
  | none => true
  | some s => s.isEmpty

/-- The inner `for post in posts` loop of `fetch_subreddit_posts`
(reddit_scraper.py lines 112-137): normalize each entry (a malformed entry
raises), append it, count it, and break as soon as the count reaches the
limit. Returns the updated count and accumulator. -/
def takePosts (subreddit : PyStr) (limit : Nat) :
    List JVal → Nat → List Post → Except PyErr (Nat × List Post)
  | [], total, acc => .ok (total, acc)
  | e :: rest, total, acc =>
    match normalize_entry subreddit e with
    | .error err => .error err
    | .ok p =>
      if limit ≤ total + 1 then .ok (total + 1, acc ++ [p])
      else takePosts subreddit limit rest (total + 1) (acc ++ [p])

/-- The `while total_fetched < limit` pagination loop of
`fetch_subreddit_posts` (reddit_scraper.py lines 87-143).  Each iteration
consumes the next element of `responses`: `none` models a page request that
raised past the transport's retries (caught, loop broken), `some page` a
successful page.  A request past the end of `responses` models the server
returning an empty page.  The trace records, for every request issued, the
`limit` query parameter sent (always the pre-computed `batch`) together with
`total_fetched` at request time. -/
def fetchLoop (subreddit : PyStr) (batch limit : Nat) :
    List (Option Page) → Nat → List Post → List (Nat × Nat) →
    Except PyErr (List Post × List (Nat × Nat))
  | responses, total, acc, trace =>
    if total < limit then
      match responses with
      | [] => .ok (acc, trace ++ [(batch, total)])
      | none :: _ => .ok (acc, trace ++ [(batch, total)])
      | some page :: rest =>
        match page.children with
        | [] => .ok (acc, trace ++ [(batch, total)])
        | _ :: _ =>
          match takePosts subreddit limit page.children total acc with
          | .error err => .error err
          | .ok (total', acc') =>
            if afterFalsy page.after then .ok (acc', trace ++ [(batch, total)])
            else fetchLoop subreddit batch limit rest total' acc' (trace ++ [(batch, total)])
    else .ok (acc, trace)

/-- Model of `RedditScraper.fetch_subreddit_posts` (reddit_scraper.py lines
67-146): reject an invalid category with `ValueError`, compute `batch_size =
min(100, limit)` once, and run the pagination loop from an empty
accumulator. -/
def fetch_subreddit_posts (subreddit category : PyStr) (limit : Nat)
    (responses : List (Option Page)) : Except PyErr (List Post × List (Nat × Nat)) :=
  if category ∉ ([pys "hot", pys "top", pys "new"] : List PyStr) then .error .valueError
  else fetchLoop subreddit (min 100 limit) limit responses 0 [] []

/-- A failed HTTP attempt: `requests.RequestException`, optionally carrying
the HTTP status (e.g. `HTTPError` from `raise_for_status`); `none` models a
network error or timeout without a status. -/
structure ReqFailure where
  status : Option Nat
deriving DecidableEq, Repr

/-- What `_make_request` can raise: the re-raised last request failure, or
the generic `Exception("Max retries exceeded")` after the loop (reachable
only when `max_retries = 0`). -/
inductive MakeReqErr where
  | reqFailure (e : ReqFailure)
  | maxRetriesExceeded
deriving DecidableEq, Repr

/-- The `for attempt in range(max_retries)` loop of
`RedditScraper._make_request` (reddit_scraper.py lines 54-65), structurally
recursing on the remaining attempts.  `outcome n` is the result of the
`n`-th HTTP attempt.  Returns the call result, the number of attempts
performed, and the list of backoff sleeps (`2 ** attempt`) taken between
attempts. -/
def make_request_go (outcome : Nat → Except ReqFailure JVal) (max_retries : Nat) :
    Nat → Nat → List Nat → Except MakeReqErr JVal × Nat × List Nat
  | 0, attempt, sleeps => (.error .maxRetriesExceeded, attempt, sleeps)
  | remaining + 1, attempt, sleeps =>
    match outcome attempt with
    | .ok v => (.ok v, attempt + 1, sleeps)
    | .error e =>
      if attempt = max_retries - 1 then (.error (.reqFailure e), attempt + 1, sleeps)
      else make_request_go outcome max_retries remaining (attempt + 1) (sleeps ++ [2 ^ attempt])

/-- Model of `RedditScraper._make_request` (reddit_scraper.py lines 46-65):
every `requests.RequestException` - transient or not, any HTTP status - is
caught by the single `except` clause; the last attempt re-raises, earlier
failures sleep `2 ** attempt` and retry. -/
def make_request (outcome : Nat → Except ReqFailure JVal) (max_retries : Nat) :
    Except MakeReqErr JVal × Nat × List Nat :=
  make_request_go outcome max_retries max_retries 0 []

/-- Attachment of `top_comments` to one post by the orchestrator's inner
loop (reddit_scraper.py lines 254-268).  `detailsOf` maps a permalink to the
outcome of `scrape_post_details`; a raised exception is caught and yields an
empty comment list, as does an absent detail record or an empty comment
forest; otherwise the first `max_comments_per_post` comments are flattened
and the text list capped at `max_comments_per_post`. -/
def process_post (detailsOf : PyStr → Except PyErr (Option PostDetails))
    (max_comments_per_post : Nat) (p : Post) : Post :=
  match detailsOf p.permalink with
  | .error _ => { p with top_comments := some [] }
  | .ok none => { p with top_comments := some [] }
  | .ok (some d) =>
    match d.comments with
    | [] => { p with top_comments := some [] }
    | _ :: _ =>
      { p with
        top_comments := some
          ((extract_all_comments_text (d.comments.take max_comments_per_post)).take
            max_comments_per_post) }

/-- The `for post in posts` loop of `fetch_posts_from_subreddits`
(reddit_scraper.py lines 254-268), processing the posts in order. -/
def process_posts (detailsOf : PyStr → Except PyErr (Option PostDetails))
    (max_comments_per_post : Nat) : List Post → List Post
  | [] => []
  | p :: rest =>
    process_post detailsOf max_comments_per_post p ::
      process_posts detailsOf max_comments_per_post rest

/-- The `for subreddit in subreddits` loop of `fetch_posts_from_subreddits`
(reddit_scraper.py lines 244-281) with its accumulator `all_posts`.
`listingOf` maps a subreddit to the outcome of
`scraper.fetch_subreddit_posts`; when it raises, the `except` clause catches,
logs and RETURNS the accumulator immediately (reddit_scraper.py line 279). -/
def fetch_posts_loop (listingOf : PyStr → Except PyErr (List Post))
    (detailsOf : PyStr → Except PyErr (Option PostDetails))
    (include_comments : Bool) (max_comments_per_post : Nat) :
    List PyStr → List Post → List Post
  | [], acc => acc
  | s :: rest, acc =>
    match listingOf s with
    | .error _ => acc
    | .ok posts =>
      let posts' :=
        if include_comments then process_posts detailsOf max_comments_per_post posts
        else posts
      fetch_posts_loop listingOf detailsOf include_comments max_comments_per_post rest
        (acc ++ posts')

/-- Model of the orchestrator `fetch_posts_from_subreddits`
(reddit_scraper.py lines 230-281). -/
def fetch_posts_from_subreddits (listingOf : PyStr → Except PyErr (List Post))
    (detailsOf : PyStr → Except PyErr (Option PostDetails))
    (include_comments : Bool) (max_comments_per_post : Nat)
    (subreddits : List PyStr) : List Post :=
  fetch_posts_loop listingOf detailsOf include_comments max_comments_per_post subreddits []

/-- One Fisher-Yates step: exchange positions `i` and `j` of a list (both in
range; out-of-range leaves the list unchanged and never occurs in the
shuffle below). -/
def listSwap (l : List α) (i j : Nat) : List α :=
  match l.get? i, l.get? j with
  | some a, some b => (l.set i b).set j a
  | _, _ => l

/-- The descending loop of CPython's `random.shuffle`: for `i` from
`len(x) - 1` down to `1`, pick `j` uniformly in `[0, i]` (`rand i` reduced
modulo `i + 1`) and swap `x[i]` with `x[j]`. -/
def shuffle_pass (rand : Nat → Nat) : Nat → List α → List α
  | 0, l => l
  | i + 1, l => shuffle_pass rand i (listSwap l (i + 1) (rand (i + 1) % (i + 2)))

/-- Model of `random.shuffle(posts)` as invoked by
`BuildOpportunityAnalyzer.run` (main.py line 40), with `rand` the stream of
random draws. -/
def python_shuffle (rand : Nat → Nat) (l : List α) : List α :=
  shuffle_pass rand (l.length - 1) l

/-- Model of the fetch-then-shuffle prefix of `BuildOpportunityAnalyzer.run`
(main.py lines 31-41): fetch posts from all configured subreddits (comments
included, as in the orchestrator's defaults), then shuffle them in place. -/
def run_posts (listingOf : PyStr → Except PyErr (List Post))
    (detailsOf : PyStr → Except PyErr (Option PostDetails))
    (max_comments_per_post : Nat) (subreddits : List PyStr)
    (rand : Nat → Nat) : List Post :=
  python_shuffle rand
    (fetch_posts_from_subreddits listingOf detailsOf true max_comments_per_post subreddits)

/-! ### Lemmas about stripping and cleaning text -/

/-- Dropping a prefix never lengthens a list. -/
theorem dropWhile_length_le (p : Char → Bool) (l : List Char) :
    (l.dropWhile p).length ≤ l.length := by
  induction l with
  | nil => simp
  | cons x xs ih =>
    rw [List.dropWhile_cons]
    split
    · exact le_trans ih (by simp)
    · simp

/-- A list fixed by `dropWhile p` has every initial segment fixed by
`dropWhile p` as well. -/
theorem dropWhile_fix_of_append (p : Char → Bool) (v t l : List Char)
    (hl : v ++ t = l) (h : l.dropWhile p = l) : v.dropWhile p = v := by
  subst hl
  cases v with
  | nil => rfl
  | cons x xs =>
    rw [List.cons_append] at h
    rw [List.dropWhile_cons] at h
    rw [List.dropWhile_cons]
    split at h
    · have hlen := dropWhile_length_le p (xs ++ t)
      rw [h] at hlen
      simp at hlen
    · simp_all

/-- If a list is fixed by `dropWhile p`, so is its `rdropWhile p` image (a
prefix of it). -/
theorem dropWhile_rdropWhile_fix (p : Char → Bool) (l : List Char)
    (h : l.dropWhile p = l) : (l.rdropWhile p).dropWhile p = l.rdropWhile p := by
  obtain ⟨t, ht⟩ := List.rdropWhile_prefix p l
  exact dropWhile_fix_of_append p _ t l ht h

/-- Python's `strip` is idempotent. -/
theorem pyStrip_idem (s : PyStr) : pyStrip (pyStrip s) = pyStrip s := by
  unfold pyStrip
  rw [dropWhile_rdropWhile_fix _ _ (List.dropWhile_idempotent _ _),
    List.rdropWhile_idempotent]

/-- Cleaning is idempotent: `clean_text` of a cleaned text is itself. -/
theorem clean_text_idem (t : PyStr) : clean_text (clean_text t) = clean_text t := by
  unfold clean_text
  by_cases h0 : t = []
  · simp [h0]
  · simp only [h0, if_false]
    cases hd : pyContains (pyLower (pyStrip t)) (pys "[deleted]") with
    | true => simp
    | false =>
      cases hr : pyContains (pyLower (pyStrip t)) (pys "[removed]") with
      | true => simp
      | false =>
        simp only [Bool.or_self, if_false, Bool.false_or]
        by_cases he : pyStrip t = []
        · simp [he]
        · simp [he, pyStrip_idem, hd, hr]

/-- The unconditional shape of a cleaned text: empty, or a strip-fixed
non-empty string free of the deletion/removal markers. -/
theorem clean_text_shape (t : PyStr) :
    clean_text t = [] ∨
      (clean_text t ≠ [] ∧ pyStrip (clean_text t) = clean_text t ∧
        pyContains (pyLower (clean_text t)) (pys "[deleted]") = false ∧
        pyContains (pyLower (clean_text t)) (pys "[removed]") = false) := by
  unfold clean_text
  by_cases h0 : t = []
  · simp [h0]
  · simp only [h0, if_false]
    cases hd : pyContains (pyLower (pyStrip t)) (pys "[deleted]") with
    | true => simp
    | false =>
      cases hr : pyContains (pyLower (pyStrip t)) (pys "[removed]") with
      | true => simp
      | false =>
        simp only [Bool.or_self, if_false, Bool.false_or]
        by_cases he : pyStrip t = []
        · left
          exact he
        · right
          exact ⟨he, pyStrip_idem t, hd, hr⟩

/-- The comment-text extractor equals the filtered-clean image of the
pre-order body walk: each body is cleaned in pre-order and the empty results
are dropped. -/
theorem extract_eq_filter :
    (cs : List Comment) →
      extract_all_comments_text cs =
        ((flattenBodies cs).map clean_text).filter (fun s => !s.isEmpty)
  | [] => by simp [extract_all_comments_text, flattenBodies]
  | .mk a b sc rs :: rest => by
    have ih1 := extract_eq_filter rs
    have ih2 := extract_eq_filter rest
    have hrs : (if rs.isEmpty then [] else extract_all_comments_text rs) =
        extract_all_comments_text rs := by
      cases rs <;> simp [extract_all_comments_text]
    rw [extract_all_comments_text, hrs, ih1, ih2, flattenBodies]
    simp only [List.map_cons, List.map_append, List.filter_cons, List.filter_append]
    by_cases hb : (clean_text b).isEmpty
    · simp [hb]
    · simp [hb]
termination_by cs => sizeOf cs
decreasing_by
  all_goals simp +arith
  all_goals omega

/-- C6: the flattening pass is a pre-order depth-first left-to-right walk
emitting each comment's cleaned (trimmed) body and dropping the entries
whose cleaned body is empty - in particular a node whose body is empty or
contains a deletion/removal marker contributes nothing itself, while its
non-deleted descendants (and the following siblings) still contribute in
order, as the second conjunct shows for a literal `"[deleted]"` node. -/
theorem c6_flatten_preorder :
    (∀ cs : List Comment,
      extract_all_comments_text cs =
        ((flattenBodies cs).map clean_text).filter (fun s => !s.isEmpty))
    ∧ ∀ (a : PyStr) (sc : Int) (rs rest : List Comment),
        extract_all_comments_text (Comment.mk a (pys "[deleted]") sc rs :: rest) =
          extract_all_comments_text rs ++ extract_all_comments_text rest := by
  refine ⟨extract_eq_filter, fun a sc rs rest => ?_⟩
  have h1 : (clean_text (pys "[deleted]")).isEmpty = true := by decide
  cases rs with
  | nil => simp [extract_all_comments_text, h1]
  | cons c cs => simp [extract_all_comments_text, h1]

/-- C10: `clean_text` is idempotent, its result is either empty or a
strip-fixed non-empty text containing no deletion/removal marker, and
flattening a forest whose bodies are already cleaned emits exactly the
non-empty bodies in pre-order. -/
theorem c10_clean_text_idempotent :
    (∀ t : PyStr,
      clean_text (clean_text t) = clean_text t ∧
        (clean_text t = [] ∨
          (clean_text t ≠ [] ∧ pyStrip (clean_text t) = clean_text t ∧
            pyContains (pyLower (clean_text t)) (pys "[deleted]") = false ∧
            pyContains (pyLower (clean_text t)) (pys "[removed]") = false)))
    ∧ ∀ cs : List Comment,
        (∀ b ∈ flattenBodies cs, clean_text b = b) →
          extract_all_comments_text cs = (flattenBodies cs).filter (fun s => !s.isEmpty) := by
  constructor
  · exact fun t => ⟨clean_text_idem t, clean_text_shape t⟩
  · intro cs h
    rw [extract_eq_filter, List.map_congr_left h]
    simp

/-- Witness for C10 at a concrete forest of already-cleaned bodies. -/
theorem c10_witness :
    extract_all_comments_text [Comment.mk (pys "u") (pys "hi") 1 []] =
      (flattenBodies [Comment.mk (pys "u") (pys "hi") 1 []]).filter (fun s => !s.isEmpty) :=
  c10_clean_text_idempotent.2 [Comment.mk (pys "u") (pys "hi") 1 []]
    (by simp [flattenBodies]; decide)

/-! ### Lemmas about the pagination loop -/

/-- Total number of raw entries across a sequence of listing pages. -/
def totalEntries (pages : List Page) : Nat :=
  (pages.map (fun pg => pg.children.length)).sum

/-- A raw listing entry whose `data` is an empty dict: every probed field
falls back to its default. -/
def goodEntry : JVal := .obj [(pys "data", .obj [])]

/-- The post that `normalize_entry` produces from `goodEntry`. -/
def plainPost (sub : PyStr) : Post :=
  { title := []
    author := []
    subreddit := sub
    permalink := []
    score := 0
    num_comments := 0
    created_utc := 0
    selftext := []
    image_url := none
    thumbnail_url := none
    top_comments := none }

/-- Exact count of the inner entry loop: starting strictly below the limit
with a synchronized accumulator, it returns `min limit (total + entries)`
posts when every entry normalizes. -/
theorem takePosts_spec (sub : PyStr) (limit : Nat) :
    ∀ (entries : List JVal) (total : Nat) (acc : List Post),
      (∀ e ∈ entries, (normalize_entry sub e).isOk = true) →
      acc.length = total → total < limit →
      ∃ acc', takePosts sub limit entries total acc =
          .ok (min limit (total + entries.length), acc') ∧
        acc'.length = min limit (total + entries.length) := by
  intro entries
  induction entries with
  | nil =>
    intro total acc _ hacc htl
    exact ⟨acc, by simp [takePosts, Nat.min_eq_right (le_of_lt htl), hacc]⟩
  | cons e rest ih =>
    intro total acc hok hacc htl
    obtain ⟨p, hp⟩ : ∃ p, normalize_entry sub e = .ok p := by
      have hoke := hok e (by simp)
      cases hno : normalize_entry sub e with
      | ok p => exact ⟨p, rfl⟩
      | error err => rw [hno] at hoke; simp [Except.isOk, Except.toBool] at hoke
    have hmin : min limit (total + (e :: rest).length) = min limit (total + 1 + rest.length) := by
      simp only [List.length_cons]
      omega
    by_cases hl : limit ≤ total + 1
    · refine ⟨acc ++ [p], ?_, ?_⟩
      · simp [takePosts, hp, hl, hmin]
        omega
      · simp [hmin, hacc]
        omega
    · obtain ⟨acc', heq, hlen⟩ := ih (total + 1) (acc ++ [p])
        (fun x hx => hok x (by simp [hx])) (by simp [hacc]) (by omega)
      refine ⟨acc', ?_, ?_⟩
      · simp only [takePosts, hp]
        rw [if_neg hl, heq, hmin]
      · rw [hlen, hmin]

/-- Bound of the inner entry loop: on success the accumulator stays
synchronized and the count never exceeds the limit. -/
theorem takePosts_bound (sub : PyStr) (limit : Nat) :
    ∀ (entries : List JVal) (total : Nat) (acc : List Post) (t' : Nat) (a' : List Post),
      takePosts sub limit entries total acc = .ok (t', a') →
      acc.length = total → total < limit →
      a'.length = t' ∧ t' ≤ limit := by
  intro entries
  induction entries with
  | nil =>
    intro total acc t' a' heq hacc htl
    simp [takePosts] at heq
    obtain ⟨h1, h2⟩ := heq
    subst h1
    subst h2
    exact ⟨hacc, le_of_lt htl⟩
  | cons e rest ih =>
    intro total acc t' a' heq hacc htl
    simp only [takePosts] at heq
    cases hno : normalize_entry sub e with
    | error err => rw [hno] at heq; cases heq
    | ok p =>
      rw [hno] at heq
      dsimp only at heq
      by_cases hl : limit ≤ total + 1
      · rw [if_pos hl] at heq
        simp at heq
        obtain ⟨h1, h2⟩ := heq
        subst h1
        subst h2
        simp [hacc]
        omega
      · rw [if_neg hl] at heq
        exact ih (total + 1) (acc ++ [p]) t' a' heq (by simp [hacc]) (by omega)

/-- Membership in the dropLast of a tail extends to the dropLast of the
whole list. -/
theorem mem_dropLast_cons {q pg : Page} {pages' : List Page}
    (hq : q ∈ pages'.dropLast) : q ∈ (pg :: pages').dropLast := by
  cases pages' with
  | nil => simp at hq
  | cons r rs =>
    rw [List.dropLast_cons₂]
    exact List.mem_cons_of_mem _ hq

/-- The head of a list with a non-empty tail belongs to its dropLast. -/
theorem head_mem_dropLast_cons {pg : Page} {pages' : List Page} (h : pages' ≠ []) :
    pg ∈ (pg :: pages').dropLast := by
  cases pages' with
  | nil => exact absurd rfl h
  | cons r rs =>
    rw [List.dropLast_cons₂]
    exact List.mem_cons_self _ _

/-- Exact count of the pagination loop over a well-formed page sequence:
every page normalizes, every page before the last is non-empty and carries a
truthy cursor; then the loop succeeds and returns exactly
`min limit (total + totalEntries pages)` posts. -/
theorem fetchLoop_spec (sub : PyStr) (batch limit : Nat) :
    ∀ (pages : List Page) (total : Nat) (acc : List Post) (trace : List (Nat × Nat)),
      acc.length = total → total ≤ limit →
      (∀ pg ∈ pages, ∀ e ∈ pg.children, (normalize_entry sub e).isOk = true) →
      (∀ pg ∈ pages.dropLast, pg.children.isEmpty = false ∧ afterFalsy pg.after = false) →
      ∃ posts trace',
        fetchLoop sub batch limit (pages.map some) total acc trace = .ok (posts, trace') ∧
          posts.length = min limit (total + totalEntries pages) := by
  intro pages
  induction pages with
  | nil =>
    intro total acc trace hacc htl _ _
    by_cases h : total < limit
    · exact ⟨acc, trace ++ [(batch, total)], by
        unfold fetchLoop
        simp [h, hacc, totalEntries, Nat.min_eq_right (le_of_lt h)]⟩
    · have : total = limit := by omega
      exact ⟨acc, trace, by
        unfold fetchLoop
        simp [h, hacc, this, totalEntries]⟩
  | cons pg pages' ih =>
    intro total acc trace hacc htl hok hwf
    by_cases h : total < limit
    · cases hc : pg.children with
      | nil =>
        have hlast : pages' = [] := by
          cases hp' : pages' with
          | nil => rfl
          | cons q qs =>
            exfalso
            have hmem := (hwf pg (head_mem_dropLast_cons (by simp [hp']))).1
            rw [hc] at hmem
            simp at hmem
        subst hlast
        exact ⟨acc, trace ++ [(batch, total)], by
          unfold fetchLoop
          simp [h, hc, hacc, totalEntries, Nat.min_eq_right (le_of_lt h)]⟩
      | cons e es =>
        obtain ⟨acc', htp, hlen⟩ := takePosts_spec sub limit pg.children total acc
          (hok pg (by simp)) hacc h
        by_cases haf : afterFalsy pg.after = true
        · have hlast : pages' = [] := by
            cases hp' : pages' with
            | nil => rfl
            | cons q qs =>
              exfalso
              have hmem := (hwf pg (head_mem_dropLast_cons (by simp [hp']))).2
              rw [haf] at hmem
              cases hmem
          subst hlast
          refine ⟨acc', trace ++ [(batch, total)], ?_, ?_⟩
          · unfold fetchLoop
            simp only [h, if_true, hc, List.map_cons]
            rw [← hc, htp]
            simp [haf]
          · rw [hlen]
            simp [totalEntries]
        · obtain ⟨posts, trace'', hloop, hplen⟩ := ih
            (min limit (total + pg.children.length)) acc' (trace ++ [(batch, total)])
            hlen (min_le_left _ _)
            (fun q hq e' he' => hok q (by simp [hq]) e' he')
            (fun q hq => hwf q (mem_dropLast_cons hq))
          refine ⟨posts, trace'', ?_, ?_⟩
          · unfold fetchLoop
            simp only [h, if_true, hc, List.map_cons]
            rw [← hc, htp]
            rw [Bool.not_eq_true] at haf
            simp only [haf, Bool.false_eq_true, if_false]
            exact hloop
          · rw [hplen]
            simp only [totalEntries, List.map_cons, List.sum_cons]
            have htE : totalEntries pages' = (pages'.map (fun q => q.children.length)).sum := rfl
            omega
    · have hte : total = limit := by omega
      exact ⟨acc, trace, by
        unfold fetchLoop
        simp [h, hacc, hte]⟩

/-- Bound of the pagination loop: starting with a synchronized accumulator
at or below the limit, the returned post list never exceeds the limit, for
arbitrary responses. -/
theorem fetchLoop_le (sub : PyStr) (batch limit : Nat) :
    ∀ (responses : List (Option Page)) (total : Nat) (acc : List Post)
      (trace : List (Nat × Nat)) (posts : List Post) (trace' : List (Nat × Nat)),
      fetchLoop sub batch limit responses total acc trace = .ok (posts, trace') →
      acc.length = total → total ≤ limit → posts.length ≤ limit := by
  intro responses
  induction responses with
  | nil =>
    intro total acc trace posts trace' heq hacc htl
    unfold fetchLoop at heq
    by_cases h : total < limit
    · rw [if_pos h] at heq
      simp at heq
      obtain ⟨h1, -⟩ := heq
      subst h1
      omega
    · rw [if_neg h] at heq
      simp at heq
      obtain ⟨h1, -⟩ := heq
      subst h1
      omega
  | cons r rest ih =>
    intro total acc trace posts trace' heq hacc htl
    unfold fetchLoop at heq
    by_cases h : total < limit
    · rw [if_pos h] at heq
      cases r with
      | none =>
        simp at heq
        obtain ⟨h1, -⟩ := heq
        subst h1
        omega
      | some page =>
        dsimp only at heq
        cases hc : page.children with
        | nil =>
          rw [hc] at heq
          simp at heq
          obtain ⟨h1, -⟩ := heq
          subst h1
          omega
        | cons e es =>
          rw [hc] at heq
          dsimp only at heq
          rw [← hc] at heq
          cases htp : takePosts sub limit page.children total acc with
          | error err => rw [htp] at heq; cases heq
          | ok r2 =>
            rw [htp] at heq
            obtain ⟨t', a'⟩ := r2
            obtain ⟨hlen, hle⟩ := takePosts_bound sub limit page.children total acc t' a' htp hacc h
            dsimp only at heq
            by_cases haf : afterFalsy page.after = true
            · rw [if_pos haf] at heq
              simp at heq
              obtain ⟨h1, -⟩ := heq
              subst h1
              omega
            · rw [if_neg haf] at heq
              exact ih t' a' (trace ++ [(batch, total)]) posts trace' heq hlen hle
    · rw [if_neg h] at heq
      simp at heq
      obtain ⟨h1, -⟩ := heq
      subst h1
      omega

/-- Every request in the loop's trace carries the fixed batch parameter. -/
theorem fetchLoop_trace (sub : PyStr) (batch limit : Nat) :
    ∀ (responses : List (Option Page)) (total : Nat) (acc : List Post)
      (trace : List (Nat × Nat)) (posts : List Post) (trace' : List (Nat × Nat)),
      fetchLoop sub batch limit responses total acc trace = .ok (posts, trace') →
      (∀ pr ∈ trace, pr.1 = batch) →
      ∀ pr ∈ trace', pr.1 = batch := by
  intro responses
  induction responses with
  | nil =>
    intro total acc trace posts trace' heq htr
    unfold fetchLoop at heq
    by_cases h : total < limit
    · rw [if_pos h] at heq
      simp at heq
      obtain ⟨-, h2⟩ := heq
      subst h2
      intro pr hpr
      simp at hpr
      rcases hpr with hpr | hpr
      · exact htr pr hpr
      · rw [hpr]
    · rw [if_neg h] at heq
      simp at heq
      obtain ⟨-, h2⟩ := heq
      subst h2
      exact htr
  | cons r rest ih =>
    intro total acc trace posts trace' heq htr
    have htr' : ∀ pr ∈ trace ++ [(batch, total)], pr.1 = batch := by
      intro pr hpr
      simp at hpr
      rcases hpr with hpr | hpr
      · exact htr pr hpr
      · rw [hpr]
    unfold fetchLoop at heq
    by_cases h : total < limit
    · rw [if_pos h] at heq
      cases r with
      | none =>
        simp at heq
        obtain ⟨-, h2⟩ := heq
        subst h2
        exact htr'
      | some page =>
        dsimp only at heq
        cases hc : page.children with
        | nil =>
          rw [hc] at heq
          simp at heq
          obtain ⟨-, h2⟩ := heq
          subst h2
          exact htr'
        | cons e es =>
          rw [hc] at heq
          dsimp only at heq
          rw [← hc] at heq
          cases htp : takePosts sub limit page.children total acc with
          | error err => rw [htp] at heq; cases heq
          | ok r2 =>
            rw [htp] at heq
            obtain ⟨t', a'⟩ := r2
            dsimp only at heq
            by_cases haf : afterFalsy page.after = true
            · rw [if_pos haf] at heq
              simp at heq
              obtain ⟨-, h2⟩ := heq
              subst h2
              exact htr'
            · rw [if_neg haf] at heq
              exact ih t' a' (trace ++ [(batch, total)]) posts trace' heq htr'
    · rw [if_neg h] at heq
      simp at heq
      obtain ⟨-, h2⟩ := heq
      subst h2
      exact htr

/-- C3: over a well-formed listing (each page at most 100 entries, each
page before the last non-empty with a truthy cursor, every entry
normalizable), `fetch_subreddit_posts` returns exactly
`min limit (totalEntries pages)` posts; and unconditionally - for any
response sequence whatsoever - a successful fetch never returns more than
`limit` posts. -/
theorem c3_pagination_exact (sub : PyStr) (limit : Nat) (pages : List Page)
    (hL : 0 < limit)
    (h100 : ∀ pg ∈ pages, pg.children.length ≤ 100)
    (hok : ∀ pg ∈ pages, ∀ e ∈ pg.children, (normalize_entry sub e).isOk = true)
    (hwf : ∀ pg ∈ pages.dropLast, pg.children.isEmpty = false ∧ afterFalsy pg.after = false) :
    (∃ posts trace,
      fetch_subreddit_posts sub (pys "hot") limit (pages.map some) = .ok (posts, trace) ∧
        posts.length = min limit (totalEntries pages))
    ∧ ∀ (responses : List (Option Page)) (posts : List Post) (trace : List (Nat × Nat)),
        fetch_subreddit_posts sub (pys "hot") limit responses = .ok (posts, trace) →
          posts.length ≤ limit := by
  have hcat : ¬ ((pys "hot") ∉ ([pys "hot", pys "top", pys "new"] : List PyStr)) := by decide
  constructor
  · obtain ⟨posts, trace', hloop, hlen⟩ :=
      fetchLoop_spec sub (min 100 limit) limit pages 0 [] [] rfl (Nat.zero_le _) hok hwf
    refine ⟨posts, trace', ?_, ?_⟩
    · rw [fetch_subreddit_posts, if_neg hcat]
      exact hloop
    · rw [hlen]
      simp
  · intro responses posts trace h
    rw [fetch_subreddit_posts, if_neg hcat] at h
    exact fetchLoop_le sub (min 100 limit) limit responses 0 [] [] posts trace h rfl
      (Nat.zero_le _)

/-- Witness for C3 at a concrete one-page listing. -/
theorem c3_witness :
    (∃ posts trace,
      fetch_subreddit_posts (pys "s") (pys "hot") 1 ([⟨[goodEntry], none⟩].map some) =
          .ok (posts, trace) ∧
        posts.length = min 1 (totalEntries [⟨[goodEntry], none⟩]))
    ∧ ∀ (responses : List (Option Page)) (posts : List Post) (trace : List (Nat × Nat)),
        fetch_subreddit_posts (pys "s") (pys "hot") 1 responses = .ok (posts, trace) →
          posts.length ≤ 1 :=
  c3_pagination_exact (pys "s") 1 [⟨[goodEntry], none⟩] (by decide) (by decide)
    (by decide) (by decide)

/-- C4 counterexample: with limit 10 and a first page of only 4 entries
followed by a cursor, the second request is issued with limit parameter 10,
not `min(100, 10 - 4) = 6` - `batch_size` is computed once before the loop
and never recomputed from the remaining need. -/
theorem c4_counterexample :
    (fetch_subreddit_posts (pys "s") (pys "hot") 10
        [some ⟨List.replicate 4 goodEntry, some (pys "t3")⟩,
          some ⟨List.replicate 6 goodEntry, none⟩]).map (fun r => r.2) =
      .ok [(10, 0), (10, 4)]
    ∧ ¬ ∀ pr ∈ [((10 : Nat), (0 : Nat)), (10, 4)], pr.1 = min 100 (10 - pr.2) := by
  constructor
  · rfl
  · decide

/-- C4 amended: every request of the pagination loop is issued with the
same limit parameter `min 100 limit`, computed once up front (not from the
remaining count). -/
theorem c4_constant_batch (sub category : PyStr) (limit : Nat)
    (responses : List (Option Page)) (posts : List Post) (trace : List (Nat × Nat))
    (h : fetch_subreddit_posts sub category limit responses = .ok (posts, trace)) :
    ∀ pr ∈ trace, pr.1 = min 100 limit := by
  rw [fetch_subreddit_posts] at h
  split at h
  · cases h
  · exact fetchLoop_trace sub (min 100 limit) limit responses 0 [] [] posts trace h
      (by intro pr hpr; simp at hpr)

/-- Witness for C4's amended statement at a concrete run allocating one
request. -/
theorem c4_constant_batch_witness : ((1 : Nat), (0 : Nat)).1 = min 100 1 :=
  c4_constant_batch (pys "s") (pys "hot") 1 [] [] [(1, 0)] (by rfl) (1, 0) (by decide)

/-- C8: when a page's cursor is falsy (absent or empty) the loop never
looks at later responses; when a page has no entries the loop stops at once
and returns exactly the posts accumulated so far, even below the limit; and
the same cursor-independence holds through `fetch_subreddit_posts`. -/
theorem c8_cursor_exhaustion (sub : PyStr) (batch limit total : Nat) (acc : List Post)
    (trace : List (Nat × Nat)) (pg : Page) (rest rest' : List (Option Page)) :
    (afterFalsy pg.after = true →
      fetchLoop sub batch limit (some pg :: rest) total acc trace =
        fetchLoop sub batch limit (some pg :: rest') total acc trace)
    ∧ (pg.children = [] → total < limit →
      fetchLoop sub batch limit (some pg :: rest) total acc trace =
        .ok (acc, trace ++ [(batch, total)]))
    ∧ (afterFalsy pg.after = true →
      fetch_subreddit_posts sub (pys "hot") limit (some pg :: rest) =
        fetch_subreddit_posts sub (pys "hot") limit (some pg :: rest')) := by
  have key : ∀ (b : Nat), afterFalsy pg.after = true →
      ∀ (r r' : List (Option Page)) (tt : Nat) (aa : List Post) (tr : List (Nat × Nat)),
        fetchLoop sub b limit (some pg :: r) tt aa tr =
          fetchLoop sub b limit (some pg :: r') tt aa tr := by
    intro b haf r r' tt aa tr
    unfold fetchLoop
    by_cases h : tt < limit
    · rw [if_pos h, if_pos h]
      dsimp only
      cases hc : pg.children with
      | nil => rfl
      | cons e es =>
        dsimp only
        rw [← hc]
        cases htp : takePosts sub limit pg.children tt aa with
        | error err => rfl
        | ok r2 =>
          obtain ⟨t', a'⟩ := r2
          dsimp only
          rw [if_pos haf, if_pos haf]
    · rw [if_neg h, if_neg h]
  refine ⟨fun haf => key batch haf rest rest' total acc trace, fun hc htl => ?_, fun haf => ?_⟩
  · unfold fetchLoop
    rw [if_pos htl]
    dsimp only
    rw [hc]
  · rw [fetch_subreddit_posts, fetch_subreddit_posts]
    split
    · rfl
    · exact key (min 100 limit) haf rest rest' 0 [] []

/-- Witness for C8: a first page with an absent cursor makes a longer and a
shorter response tail indistinguishable, and an empty page returns the
accumulator immediately. -/
theorem c8_witness :
    (fetchLoop (pys "s") 5 5 [some ⟨[goodEntry], none⟩, some ⟨[goodEntry], none⟩] 0 [] [] =
      fetchLoop (pys "s") 5 5 [some ⟨[goodEntry], none⟩] 0 [] [])
    ∧ fetchLoop (pys "s") 5 5 [some ⟨[], some (pys "x")⟩] 0 [] [] = .ok ([], [(5, 0)]) :=
  ⟨(c8_cursor_exhaustion (pys "s") 5 5 0 [] [] ⟨[goodEntry], none⟩
      [some ⟨[goodEntry], none⟩] []).1 (by decide),
    (c8_cursor_exhaustion (pys "s") 5 5 0 [] [] ⟨[], some (pys "x")⟩ [] []).2.1 rfl
      (by decide)⟩

/-! ### Transport retry behaviour -/

/-- C2 counterexample: a call that always fails with HTTP 404 - a
non-retryable client error according to the claim - is attempted 3 times,
not once: `_make_request` catches every `RequestException` alike and has no
status-based short-circuit. -/
theorem c2_counterexample :
    (make_request (fun _ => .error ⟨some 404⟩) 3).2.1 = 3 ∧
      ¬ (make_request (fun _ => .error ⟨some 404⟩) 3).2.1 = 1 := by
  constructor
  · rfl
  · decide

/-- C2 amended: a transport call whose attempts all fail - with any mix of
failures, 4xx statuses included - performs exactly 3 attempts, sleeping
`2 ^ attempt` time units between consecutive attempts (`[1, 2]`), and then
re-raises the last failure. -/
theorem c2_retry_bound (outcome : Nat → Except ReqFailure JVal) (e : Nat → ReqFailure)
    (h : ∀ n, outcome n = .error (e n)) :
    make_request outcome 3 = (.error (.reqFailure (e 2)), 3, [1, 2]) := by
  simp [make_request, make_request_go, h 0, h 1, h 2]

/-- Witness for C2's amended statement with a concrete always-failing
outcome. -/
theorem c2_retry_bound_witness :
    make_request (fun _ => .error ⟨none⟩) 3 = (.error (.reqFailure ⟨none⟩), 3, [1, 2]) :=
  c2_retry_bound (fun _ => .error ⟨none⟩) (fun _ => ⟨none⟩) (fun _ => rfl)

/-! ### Detail-fetch shape validation -/

/-- C5 counterexample: the payload `[{}, {}]` is a list of length 2, yet
`scrape_post_details` raises (`KeyError` from `post_data[0]["data"]`)
instead of returning absent - the shape validation only checks
list-of-length-at-least-2, not the nested fields. -/
theorem c5_counterexample :
    scrape_post_details (.ok (.arr [.obj [], .obj []])) = .error .keyError ∧
      scrape_post_details (.ok (.arr [.obj [], .obj []])) ≠ .ok none := by
  refine ⟨rfl, fun h => ?_⟩
  exact Except.noConfusion (h.symm.trans (rfl : scrape_post_details
    (.ok (.arr [.obj [], .obj []])) = .error .keyError))

/-- C5 amended: a payload that is not a list, or is a list of fewer than
two elements, yields absent, as does a request failure; but (per the
counterexample) a malformed list of length at least 2 raises past the
function. -/
theorem c5_shape_validation :
    (∀ v : JVal, (∀ xs, v = JVal.arr xs → xs.length < 2) →
      scrape_post_details (.ok v) = .ok none)
    ∧ scrape_post_details (.error ()) = .ok none := by
  constructor
  · intro v hv
    cases v with
    | arr xs =>
      have hlt := hv xs rfl
      simp [scrape_post_details, hlt]
    | null => rfl
    | bool b => rfl
    | num n => rfl
    | str s => rfl
    | obj f => rfl
  · rfl

/-- Witness for C5's amended statement at a one-element list payload. -/
theorem c5_shape_validation_witness :
    scrape_post_details (.ok (.arr [.obj []])) = .ok none :=
  c5_shape_validation.1 (.arr [.obj []]) (by intro xs h; cases h; decide)

/-! ### Orchestrator failure isolation -/

/-- The per-post processing distributes over list append. -/
theorem process_posts_append (detailsOf : PyStr → Except PyErr (Option PostDetails))
    (maxc : Nat) (pre suf : List Post) :
    process_posts detailsOf maxc (pre ++ suf) =
      process_posts detailsOf maxc pre ++ process_posts detailsOf maxc suf := by
  induction pre with
  | nil => simp [process_posts]
  | cons q qs ih => simp [process_posts, ih]

/-- C7: a post whose detail/comment fetch raises is not dropped - it is
kept at its position with `top_comments = []` and the remaining posts of
the subreddit are still processed, all the way through the orchestrator's
result for that subreddit. -/
theorem c7_post_failure_isolated (listingOf : PyStr → Except PyErr (List Post))
    (detailsOf : PyStr → Except PyErr (Option PostDetails)) (maxc : Nat) (sub : PyStr)
    (posts pre suf : List Post) (p : Post) (err : PyErr)
    (hl : listingOf sub = .ok posts) (hsplit : posts = pre ++ p :: suf)
    (hd : detailsOf p.permalink = .error err) :
    fetch_posts_from_subreddits listingOf detailsOf true maxc [sub] =
      process_posts detailsOf maxc pre ++
        ({ p with top_comments := some [] } :: process_posts detailsOf maxc suf) := by
  rw [fetch_posts_from_subreddits]
  unfold fetch_posts_loop
  rw [hl]
  dsimp only
  unfold fetch_posts_loop
  rw [if_pos rfl, hsplit, process_posts_append]
  simp only [List.nil_append]
  congr 1
  rw [process_posts]
  congr 1
  rw [process_post, hd]

/-- Witness for C7 at a one-post listing whose detail fetch raises. -/
theorem c7_witness :
    fetch_posts_from_subreddits (fun _ => .ok [plainPost (pys "s")])
        (fun _ => .error .keyError) true 10 [pys "s"] =
      process_posts (fun _ => .error .keyError) 10 [] ++
        ({ plainPost (pys "s") with top_comments := some [] } ::
          process_posts (fun _ => .error .keyError) 10 []) :=
  c7_post_failure_isolated (fun _ => .ok [plainPost (pys "s")]) (fun _ => .error .keyError)
    10 (pys "s") [plainPost (pys "s")] [] [] (plainPost (pys "s")) .keyError rfl rfl rfl

/-- A concrete three-subreddit listing oracle whose middle subreddit fails. -/
def c1Listing : PyStr → Except PyErr (List Post) :=
  fun s =>
    if s = pys "a" then .ok [plainPost (pys "a")]
    else if s = pys "b" then .error .valueError
    else .ok [plainPost (pys "c")]

/-- C1 counterexample: with subreddits `["a", "b", "c"]` where `"b"`'s
listing fetch raises, the orchestrator returns only `"a"`'s posts - the
post of the non-failing subreddit `"c"` is missing because the `except`
clause returns the accumulator instead of continuing with the next
subreddit. -/
theorem c1_counterexample :
    fetch_posts_from_subreddits c1Listing (fun _ => .ok none) false 10
        [pys "a", pys "b", pys "c"] = [plainPost (pys "a")]
    ∧ plainPost (pys "c") ∉
        fetch_posts_from_subreddits c1Listing (fun _ => .ok none) false 10
          [pys "a", pys "b", pys "c"] := by
  constructor
  · rfl
  · decide

/-- The subreddit loop stops at the first failing listing, returning only
what earlier subreddits accumulated. -/
theorem fetch_posts_loop_abort (listingOf : PyStr → Except PyErr (List Post))
    (detailsOf : PyStr → Except PyErr (Option PostDetails))
    (inc : Bool) (maxc : Nat) :
    ∀ (pre : List PyStr) (bad : PyStr) (rest : List PyStr) (err : PyErr) (acc : List Post),
      (∀ s ∈ pre, (listingOf s).isOk = true) → listingOf bad = .error err →
      fetch_posts_loop listingOf detailsOf inc maxc (pre ++ bad :: rest) acc =
        fetch_posts_loop listingOf detailsOf inc maxc pre acc := by
  intro pre
  induction pre with
  | nil =>
    intro bad rest err acc _ hbad
    simp only [List.nil_append]
    unfold fetch_posts_loop
    rw [hbad]
  | cons s pre' ih =>
    intro bad rest err acc hpre hbad
    obtain ⟨ps, hps⟩ : ∃ ps, listingOf s = .ok ps := by
      have hs := hpre s (by simp)
      cases hno : listingOf s with
      | ok ps => exact ⟨ps, rfl⟩
      | error e2 => rw [hno] at hs; simp [Except.isOk, Except.toBool] at hs
    simp only [List.cons_append]
    unfold fetch_posts_loop
    rw [hps]
    dsimp only
    exact ih bad rest err _ (fun q hq => hpre q (by simp [hq])) hbad

/-- C1 amended: a listing failure is caught and that subreddit contributes
zero posts, and the call completes without raising - but instead of
continuing, the orchestrator returns at once with only the posts of the
subreddits processed before the failure; subsequent subreddits are not
processed. -/
theorem c1_abort_on_failure (listingOf : PyStr → Except PyErr (List Post))
    (detailsOf : PyStr → Except PyErr (Option PostDetails))
    (inc : Bool) (maxc : Nat)
    (pre : List PyStr) (bad : PyStr) (rest : List PyStr) (err : PyErr)
    (hpre : ∀ s ∈ pre, (listingOf s).isOk = true)
    (hbad : listingOf bad = .error err) :
    fetch_posts_from_subreddits listingOf detailsOf inc maxc (pre ++ bad :: rest) =
      fetch_posts_from_subreddits listingOf detailsOf inc maxc pre :=
  fetch_posts_loop_abort listingOf detailsOf inc maxc pre bad rest err [] hpre hbad

/-- Witness for C1's amended statement on the concrete failing oracle. -/
theorem c1_abort_on_failure_witness :
    fetch_posts_from_subreddits c1Listing (fun _ => .ok none) false 10
        ([pys "a"] ++ pys "b" :: [pys "c"]) =
      fetch_posts_from_subreddits c1Listing (fun _ => .ok none) false 10 [pys "a"] :=
  c1_abort_on_failure c1Listing (fun _ => .ok none) false 10 [pys "a"] (pys "b")
    [pys "c"] .valueError (by decide) rfl

/-! ### Shuffle is a permutation -/

/-- Moving the `m`-th element of a list to the front while writing `x` at
position `m` permutes `x` consed on the original list. -/
theorem cons_set_perm : ∀ (t : List α) (m : Nat) (x : α) (h : m < t.length),
    List.Perm (t.get ⟨m, h⟩ :: t.set m x) (x :: t) := by
  intro t
  induction t with
  | nil => intro m x h; simp at h
  | cons b s ih =>
    intro m x h
    cases m with
    | zero => exact List.Perm.swap x b s
    | succ k =>
      have hk : k < s.length := by simp at h; omega
      have h1 : (b :: s).get ⟨k + 1, h⟩ :: (b :: s).set (k + 1) x =
          s.get ⟨k, hk⟩ :: b :: s.set k x := by simp
      rw [h1]
      have s1 : List.Perm (s.get ⟨k, hk⟩ :: b :: s.set k x)
          (b :: s.get ⟨k, hk⟩ :: s.set k x) := List.Perm.swap b (s.get ⟨k, hk⟩) (s.set k x)
      have s2 : List.Perm (b :: s.get ⟨k, hk⟩ :: s.set k x) (b :: x :: s) :=
        (ih k x hk).cons b
      have s3 : List.Perm (b :: x :: s) (x :: b :: s) := List.Perm.swap x b s
      exact (s1.trans s2).trans s3

/-- Exchanging two positions of a list (via two writes) is a permutation. -/
theorem set_set_perm : ∀ (l : List α) (i j : Nat) (hi : i < l.length) (hj : j < l.length),
    List.Perm ((l.set i (l.get ⟨j, hj⟩)).set j (l.get ⟨i, hi⟩)) l := by
  intro l
  induction l with
  | nil => intro i j hi hj; simp at hi
  | cons a t ih =>
    intro i j hi hj
    cases i with
    | zero =>
      cases j with
      | zero => simp
      | succ m =>
        have hm : m < t.length := by simp at hj; omega
        have hgj : (a :: t).get ⟨m + 1, hj⟩ = t.get ⟨m, hm⟩ := by simp
        have hgi : (a :: t).get ⟨0, hi⟩ = a := rfl
        rw [hgj, hgi]
        have hstep : ((a :: t).set 0 (t.get ⟨m, hm⟩)).set (m + 1) a =
            t.get ⟨m, hm⟩ :: t.set m a := by simp [List.set]
        rw [hstep]
        exact cons_set_perm t m a hm
    | succ k =>
      cases j with
      | zero =>
        have hk : k < t.length := by simp at hi; omega
        have hgi : (a :: t).get ⟨k + 1, hi⟩ = t.get ⟨k, hk⟩ := by simp
        have hgj : (a :: t).get ⟨0, hj⟩ = a := rfl
        rw [hgi, hgj]
        have hstep : ((a :: t).set (k + 1) a).set 0 (t.get ⟨k, hk⟩) =
            t.get ⟨k, hk⟩ :: t.set k a := by simp [List.set]
        rw [hstep]
        exact cons_set_perm t k a hk
      | succ m =>
        have hk : k < t.length := by simp at hi; omega
        have hm : m < t.length := by simp at hj; omega
        have hgi : (a :: t).get ⟨k + 1, hi⟩ = t.get ⟨k, hk⟩ := by simp
        have hgj : (a :: t).get ⟨m + 1, hj⟩ = t.get ⟨m, hm⟩ := by simp
        rw [hgi, hgj]
        have hstep : ((a :: t).set (k + 1) (t.get ⟨m, hm⟩)).set (m + 1) (t.get ⟨k, hk⟩) =
            a :: (t.set k (t.get ⟨m, hm⟩)).set m (t.get ⟨k, hk⟩) := by simp [List.set]
        rw [hstep]
        exact (ih k m hk hm).cons a

/-- One swap step of the shuffle is a permutation. -/
theorem listSwap_perm (l : List α) (i j : Nat) : List.Perm (listSwap l i j) l := by
  unfold listSwap
  cases hi : l.get? i with
  | none => exact List.Perm.refl l
  | some a =>
    cases hj : l.get? j with
    | none => exact List.Perm.refl l
    | some b =>
      have hi' : i < l.length := by
        by_contra hc
        rw [List.get?_eq_none.mpr (by omega)] at hi
        cases hi
      have hj' : j < l.length := by
        by_contra hc
        rw [List.get?_eq_none.mpr (by omega)] at hj
        cases hj
      have ha : a = l.get ⟨i, hi'⟩ := by
        rw [List.get?_eq_get hi'] at hi
        cases hi
        rfl
      have hb : b = l.get ⟨j, hj'⟩ := by
        rw [List.get?_eq_get hj'] at hj
        cases hj
        rfl
      rw [ha, hb]
      exact set_set_perm l i j hi' hj'

/-- Every pass of the shuffle loop is a permutation. -/
theorem shuffle_pass_perm (rand : Nat → Nat) :
    ∀ (n : Nat) (l : List α), List.Perm (shuffle_pass rand n l) l := by
  intro n
  induction n with
  | zero => intro l; exact List.Perm.refl l
  | succ i ih =>
    intro l
    exact (ih _).trans (listSwap_perm l (i + 1) (rand (i + 1) % (i + 2)))

/-- The modelled `random.shuffle` permutes its input, whatever the random
draws. -/
theorem python_shuffle_perm (rand : Nat → Nat) (l : List α) :
    List.Perm (python_shuffle rand l) l :=
  shuffle_pass_perm rand (l.length - 1) l

/-- C9: the post sequence handed downstream after the shuffle step of
`BuildOpportunityAnalyzer.run` is a permutation of the merged pre-shuffle
sequence, and therefore carries the same multiset of permalinks - no post
is added, dropped or duplicated, for every random stream and every fetch
outcome. -/
theorem c9_shuffle_permutation (listingOf : PyStr → Except PyErr (List Post))
    (detailsOf : PyStr → Except PyErr (Option PostDetails))
    (maxc : Nat) (subreddits : List PyStr) (rand : Nat → Nat) :
    List.Perm (run_posts listingOf detailsOf maxc subreddits rand)
        (fetch_posts_from_subreddits listingOf detailsOf true maxc subreddits)
    ∧ List.Perm ((run_posts listingOf detailsOf maxc subreddits rand).map Post.permalink)
        ((fetch_posts_from_subreddits listingOf detailsOf true maxc subreddits).map
          Post.permalink) := by
  have h := python_shuffle_perm rand
    (fetch_posts_from_subreddits listingOf detailsOf true maxc subreddits)
  exact ⟨h, h.map Post.permalink⟩

end SFN
